import Mathlib

/-!
Verification of the migration runner (`shared/database/sqlite.go`, `RunMigrations`)
and the tenant access resolver (`apps/todo-list/handlers/handler.go`,
`sharedUsernames`) of the a-apps repository, via a shallow embedding in Lean.

The store is modelled as the list of bookkeeping rows (migration names, in
insertion order) together with a log of the schema-change statements that were
actually executed, in execution order.  Statement execution is modelled by an
oracle `exec : String → Option String` returning `none` on success and
`some err` on failure with error text `err`.
-/

namespace AApps

/-! ### Tenant access resolver -/

/-- Embeds `models.UserFromConfig` (`shared/models/user.go`): one roster entry,
with a username, a credential digest and an optional share-group label. -/
structure UserFromConfig where
  username : String
  passwordHash : String
  shareGroup : String
deriving DecidableEq, Repr

/-- Embeds the first loop of `sharedUsernames`: `group` starts out empty and is
set from the first roster entry whose `Username` equals the caller, then the
loop breaks. -/
def findShareGroup : List UserFromConfig → String → String
  | [], _ => ""
  | u :: rest, username =>
      if u.username = username then u.shareGroup else findShareGroup rest username

/-- Embeds `(h *Handler) sharedUsernames(username string) []string`
(`apps/todo-list/handlers/handler.go`), with the handler's `Users` roster made
an explicit first argument. -/
def sharedUsernames (users : List UserFromConfig) (username : String) : List String :=
  if username = "" then
    [""]
  else
    let group := findShareGroup users username
    if group = "" then
      [username]
    else
      let shared := (users.filter (fun u => u.shareGroup = group)).map
        (fun u => u.username)
      if shared.isEmpty then [username] else shared

/-! ### Migration runner -/

/-- Decimal digit characters, as produced by `fmt`'s base-10 integer
formatting. -/
def digitChar (d : Nat) : Char := Char.ofNat (48 + d)

/-- Worker for the base-10 rendering: peels digits from the least significant
end, accumulating them in front of `acc`; `fuel` bounds the recursion depth
(any `fuel > n` is enough). -/
def natDigitsCore : Nat → Nat → List Char → List Char
  | 0, _, acc => acc
  | fuel + 1, n, acc =>
      if n / 10 = 0 then digitChar (n % 10) :: acc
      else natDigitsCore fuel (n / 10) (digitChar (n % 10) :: acc)

/-- The base-10 digit string of `n`, most significant digit first: the decimal
rendering performed by `fmt.Sprintf("%d", n)`. -/
def natDigits (n : Nat) : List Char := natDigitsCore (n + 1) n []

/-- Left zero-padding to width 3: the `%03d` verb pads the digit string of the
argument with leading zeros up to 3 characters, and leaves longer digit
strings unchanged. -/
def padLeft3 (l : List Char) : List Char := List.replicate (3 - l.length) '0' ++ l

/-- Embeds `name := fmt.Sprintf("migration_%03d", i+1)` for 0-based loop
index `i`. -/
def migrationName (i : Nat) : String :=
  "migration_" ++ ⟨padLeft3 (natDigits (i + 1))⟩

/-- The persistent state the runner touches: `applied` is the list of names in
the `migrations` bookkeeping table (insertion order) and `executed` is the log
of schema-change statements executed against the store, in order. -/
structure Store where
  applied : List String
  executed : List String
deriving DecidableEq, Repr

/-- A store on which no migration has ever run: empty bookkeeping table,
nothing executed. -/
def freshStore : Store := ⟨[], []⟩

/-- Embeds the `for i, migration := range migrations` loop of `RunMigrations`,
carrying the 0-based index `i`.  Each step derives the ordinal name, skips the
statement when a bookkeeping row with that name exists (`count > 0`), and
otherwise executes the statement via the oracle — aborting with the wrapped
error on failure — and records the bookkeeping row. -/
def runMigrationsFrom (exec : String → Option String) :
    List String → Nat → Store → Option String × Store
  | [], _, store => (none, store)
  | migration :: rest, i, store =>
      let name := migrationName i
      if name ∈ store.applied then
        runMigrationsFrom exec rest (i + 1) store
      else
        match exec migration with
        | some e =>
            (some ("failed to apply migration " ++ name ++ ": " ++ e), store)
        | none =>
            runMigrationsFrom exec rest (i + 1)
              ⟨store.applied ++ [name], store.executed ++ [migration]⟩

/-- Embeds `(db *DB) RunMigrations(migrations []string) error`
(`shared/database/sqlite.go`).  The `CREATE TABLE IF NOT EXISTS migrations`
preamble is a no-op on the modelled state (the bookkeeping table is always
represented, empty when no row exists).  Returns the error (if any) together
with the mutated store. -/
def RunMigrations (exec : String → Option String) (store : Store)
    (migrations : List String) : Option String × Store :=
  runMigrationsFrom exec migrations 0 store

/-- The three-user roster of the spec's visibility examples: "alice" and "bob"
share the group "household", "carol" has no group. -/
def demoRoster : List UserFromConfig :=
  [⟨"alice", "h1", "household"⟩, ⟨"bob", "h2", "household"⟩, ⟨"carol", "h3", ""⟩]

/-! ### Decimal rendering: value semantics and injectivity -/

/-- Reads a digit string back as a number (leading zeros are harmless). -/
def digitsVal (l : List Char) : Nat :=
  l.foldl (fun acc c => 10 * acc + (c.toNat - 48)) 0

theorem digitChar_val (d : Nat) (h : d < 10) : (digitChar d).toNat - 48 = d := by
  interval_cases d <;> decide

theorem natDigitsCore_append (fuel : Nat) :
    ∀ (n : Nat) (acc : List Char),
      natDigitsCore fuel n acc = natDigitsCore fuel n [] ++ acc := by
  induction fuel with
  | zero => intro n acc; simp [natDigitsCore]
  | succ fuel ih =>
      intro n acc
      by_cases hdiv : n / 10 = 0
      · simp [natDigitsCore, hdiv]
      · simp only [natDigitsCore, if_neg hdiv]
        rw [ih (n / 10) (digitChar (n % 10) :: acc), ih (n / 10) [digitChar (n % 10)]]
        simp

theorem digitsVal_natDigitsCore (fuel : Nat) :
    ∀ n : Nat, n < fuel → digitsVal (natDigitsCore fuel n []) = n := by
  induction fuel with
  | zero => intro n h; omega
  | succ fuel ih =>
      intro n h
      by_cases hdiv : n / 10 = 0
      · have hlt : n < 10 := by omega
        simp [natDigitsCore, hdiv, digitsVal, Nat.mod_eq_of_lt hlt,
          digitChar_val n hlt]
      · have h10 : 10 ≤ n := by omega
        simp only [natDigitsCore, if_neg hdiv]
        rw [natDigitsCore_append fuel (n / 10) [digitChar (n % 10)]]
        have hval : digitsVal (natDigitsCore fuel (n / 10) []) = n / 10 :=
          ih (n / 10) (by omega)
        simp only [digitsVal] at hval ⊢
        rw [List.foldl_append, hval]
        simp [digitChar_val (n % 10) (by omega), Nat.div_add_mod]

theorem digitsVal_natDigits (n : Nat) : digitsVal (natDigits n) = n :=
  digitsVal_natDigitsCore (n + 1) n (Nat.lt_succ_self n)

theorem digitsVal_padLeft3 (l : List Char) : digitsVal (padLeft3 l) = digitsVal l := by
  unfold padLeft3
  generalize 3 - l.length = k
  induction k with
  | zero => simp
  | succ k ih =>
      simpa [digitsVal, List.replicate_succ] using ih

theorem migrationName_inj {i j : Nat} (h : migrationName i = migrationName j) :
    i = j := by
  have hdata : (migrationName i).data = (migrationName j).data := by rw [h]
  simp only [migrationName, String.data_append] at hdata
  have hpad : padLeft3 (natDigits (i + 1)) = padLeft3 (natDigits (j + 1)) :=
    List.append_cancel_left hdata
  have hval := congrArg digitsVal hpad
  rw [digitsVal_padLeft3, digitsVal_padLeft3, digitsVal_natDigits,
    digitsVal_natDigits] at hval
  omega

/-! ### Resolver lemmas -/

theorem findShareGroup_of_find?_eq (users : List UserFromConfig) (username : String)
    (u : UserFromConfig) (hfind : users.find? (fun v => v.username = username) = some u) :
    findShareGroup users username = u.shareGroup := by
  induction users with
  | nil => simp [List.find?] at hfind
  | cons w rest ih =>
      by_cases hw : w.username = username
      · rw [List.find?_cons_of_pos _ (by simpa using hw)] at hfind
        cases hfind
        simp [findShareGroup, hw]
      · rw [List.find?_cons_of_neg _ (by simpa using hw)] at hfind
        simp [findShareGroup, hw, ih hfind]

theorem findShareGroup_of_absent (users : List UserFromConfig) (username : String)
    (habs : ∀ u ∈ users, u.username ≠ username) :
    findShareGroup users username = "" := by
  induction users with
  | nil => rfl
  | cons w rest ih =>
      have hw : w.username ≠ username := habs w (by simp)
      simp only [findShareGroup, if_neg hw]
      exact ih fun u hu => habs u (by simp [hu])

theorem findShareGroup_mem (users : List UserFromConfig) (username : String)
    (hg : findShareGroup users username ≠ "") :
    ∃ u ∈ users, u.username = username ∧ u.shareGroup = findShareGroup users username := by
  induction users with
  | nil => simp [findShareGroup] at hg
  | cons w rest ih =>
      by_cases hw : w.username = username
      · exact ⟨w, by simp, hw, by simp [findShareGroup, hw]⟩
      · simp only [findShareGroup, if_neg hw] at hg ⊢
        obtain ⟨u, hu, h1, h2⟩ := ih hg
        exact ⟨u, by simp [hu], h1, h2⟩

theorem mem_shared_of_findShareGroup (users : List UserFromConfig) (username : String)
    (hg : findShareGroup users username ≠ "") :
    username ∈ (users.filter
      (fun u => u.shareGroup = findShareGroup users username)).map
      (fun u => u.username) := by
  obtain ⟨u, hu, h1, h2⟩ := findShareGroup_mem users username hg
  exact List.mem_map.mpr ⟨u, List.mem_filter.mpr ⟨hu, by simpa using h2⟩, h1⟩

/-! ### Resolver claim theorems -/

/-- C9: for every roster, calling the resolver with the empty string as the
caller identity returns exactly the singleton list containing the empty
string. -/
theorem sharedUsernames_empty_caller (users : List UserFromConfig) :
    sharedUsernames users "" = [""] := by
  simp [sharedUsernames]

/-- C5: the resolver is total and its result always is a non-empty list of
identity names containing the caller's own identity, for every caller
(including the empty string) and every roster. -/
theorem sharedUsernames_total_nonempty_self (users : List UserFromConfig)
    (username : String) :
    sharedUsernames users username ≠ [] ∧ username ∈ sharedUsernames users username := by
  unfold sharedUsernames
  by_cases h0 : username = ""
  · subst h0; simp
  · simp only [if_neg h0]
    by_cases hg : findShareGroup users username = ""
    · simp [hg]
    · simp only [if_neg hg]
      by_cases he : ((users.filter
          (fun u => u.shareGroup = findShareGroup users username)).map
          (fun u => u.username)).isEmpty
      · simp [he]
      · simp only [he, Bool.false_eq_true, if_false]
        refine ⟨?_, mem_shared_of_findShareGroup users username hg⟩
        intro hnil
        rw [hnil] at he
        simp at he

/-- C3: when the caller's roster entry (first entry with the caller's
username) carries a non-empty share-group label, the resolver returns exactly
the usernames of the roster entries whose share-group equals the caller's,
the caller included; and on the spec's example roster,
`sharedUsernames "alice" = ["alice", "bob"]` and
`sharedUsernames "carol" = ["carol"]`. -/
theorem sharedUsernames_group_expansion (users : List UserFromConfig)
    (u : UserFromConfig) (hne : u.username ≠ "")
    (hfind : users.find? (fun v => v.username = u.username) = some u)
    (hg : u.shareGroup ≠ "") :
    sharedUsernames users u.username
        = (users.filter (fun v => v.shareGroup = u.shareGroup)).map
          (fun v => v.username)
      ∧ u.username ∈ sharedUsernames users u.username
      ∧ sharedUsernames demoRoster "alice" = ["alice", "bob"]
      ∧ sharedUsernames demoRoster "carol" = ["carol"] := by
  have hgrp : findShareGroup users u.username = u.shareGroup :=
    findShareGroup_of_find?_eq users u.username u hfind
  have hmem : u.username ∈ (users.filter
      (fun v => v.shareGroup = findShareGroup users u.username)).map
      (fun v => v.username) :=
    mem_shared_of_findShareGroup users u.username (hgrp ▸ hg)
  have hres : sharedUsernames users u.username
      = (users.filter (fun v => v.shareGroup = u.shareGroup)).map
        (fun v => v.username) := by
    unfold sharedUsernames
    rw [if_neg hne, hgrp, if_neg hg]
    have hne2 : ¬ ((users.filter (fun v => v.shareGroup = u.shareGroup)).map
        (fun v => v.username)).isEmpty := by
      rw [hgrp] at hmem
      intro habs
      rw [List.isEmpty_iff] at habs
      rw [habs] at hmem
      simp at hmem
    simp [hne2]
  refine ⟨hres, ?_, by decide, by decide⟩
  rw [hres, ← hgrp]
  exact hmem

/-- Witness for C3 at the spec's example roster with caller "alice". -/
theorem sharedUsernames_group_expansion_witness :
    sharedUsernames demoRoster "alice"
        = (demoRoster.filter (fun v => v.shareGroup = "household")).map
          (fun v => v.username)
      ∧ "alice" ∈ sharedUsernames demoRoster "alice"
      ∧ sharedUsernames demoRoster "alice" = ["alice", "bob"]
      ∧ sharedUsernames demoRoster "carol" = ["carol"] :=
  sharedUsernames_group_expansion demoRoster ⟨"alice", "h1", "household"⟩
    (by decide) (by decide) (by decide)

/-- C4: for a non-empty caller identity, if no roster entry carries the
caller's username, or the first entry that does has an empty share-group
label, the resolver returns exactly the singleton of the caller identity. -/
theorem sharedUsernames_solo_fallback (users : List UserFromConfig)
    (username : String) (hne : username ≠ "")
    (h : (∀ u ∈ users, u.username ≠ username)
      ∨ ∃ u, users.find? (fun v => v.username = username) = some u ∧ u.shareGroup = "") :
    sharedUsernames users username = [username] := by
  have hg : findShareGroup users username = "" := by
    rcases h with habs | ⟨u, hfind, hgrp⟩
    · exact findShareGroup_of_absent users username habs
    · rw [findShareGroup_of_find?_eq users username u hfind, hgrp]
  unfold sharedUsernames
  rw [if_neg hne, hg]
  simp

/-- Witness for C4: "dave" is absent from the spec's example roster and
resolves to the singleton `["dave"]`. -/
theorem sharedUsernames_solo_fallback_witness :
    sharedUsernames demoRoster "dave" = ["dave"] :=
  sharedUsernames_solo_fallback demoRoster "dave" (by decide)
    (Or.inl (by decide))

/-- C8: when the usernames of the roster are pairwise distinct, the list the
resolver returns has no duplicate names, for every caller. -/
theorem sharedUsernames_nodup (users : List UserFromConfig) (username : String)
    (h : (users.map (fun u => u.username)).Nodup) :
    (sharedUsernames users username).Nodup := by
  unfold sharedUsernames
  by_cases h0 : username = ""
  · simp [h0]
  · simp only [if_neg h0]
    by_cases hg : findShareGroup users username = ""
    · simp [hg]
    · simp only [if_neg hg]
      by_cases he : ((users.filter
          (fun u => u.shareGroup = findShareGroup users username)).map
          (fun u => u.username)).isEmpty
      · simp [he]
      · simp only [he, Bool.false_eq_true, if_false]
        exact List.Nodup.sublist
          (List.Sublist.map _ (List.filter_sublist users)) h

/-- Witness for C8 at the spec's example roster with caller "alice". -/
theorem sharedUsernames_nodup_witness :
    (sharedUsernames demoRoster "alice").Nodup :=
  sharedUsernames_nodup demoRoster "alice" (by decide)

/-- C10: the resolver never widens visibility beyond the roster — every name
it returns is the caller's own identity or the username of some roster
entry. -/
theorem sharedUsernames_no_widening (users : List UserFromConfig)
    (username name : String) (h : name ∈ sharedUsernames users username) :
    name = username ∨ ∃ u ∈ users, u.username = name := by
  unfold sharedUsernames at h
  by_cases h0 : username = ""
  · subst h0
    rw [if_pos rfl] at h
    exact Or.inl (by simpa using h)
  · rw [if_neg h0] at h
    by_cases hg : findShareGroup users username = ""
    · rw [if_pos hg] at h
      exact Or.inl (by simpa using h)
    · rw [if_neg hg] at h
      by_cases he : ((users.filter
          (fun u => u.shareGroup = findShareGroup users username)).map
          (fun u => u.username)).isEmpty
      · rw [if_pos he] at h
        exact Or.inl (by simpa using h)
      · rw [if_neg (by simp [he])] at h
        obtain ⟨u, hu, rfl⟩ := List.mem_map.mp h
        exact Or.inr ⟨u, List.mem_of_mem_filter hu, rfl⟩

/-- Witness for C10: "bob" appears in alice's visibility set on the spec's
example roster, and is indeed a roster username. -/
theorem sharedUsernames_no_widening_witness :
    "bob" = "alice" ∨ ∃ u ∈ demoRoster, u.username = "bob" :=
  sharedUsernames_no_widening demoRoster "alice" "bob" (by decide)

/-! ### Migration runner lemmas -/

theorem migrationName_mem_names {k n : Nat} :
    migrationName k ∈ (List.range' 0 n).map migrationName ↔ k < n := by
  constructor
  · intro h
    obtain ⟨x, hx, hxk⟩ := List.mem_map.mp h
    have hk := migrationName_inj hxk
    subst hk
    simpa using (List.mem_range'_1.mp hx).2
  · intro h
    exact List.mem_map.mpr ⟨k, List.mem_range'_1.mpr ⟨Nat.zero_le k, by omega⟩, rfl⟩

theorem runMigrationsFrom_skip_all (exec : String → Option String) :
    ∀ (L : List String) (i : Nat) (A E : List String),
      (∀ j, j < L.length → migrationName (i + j) ∈ A) →
      runMigrationsFrom exec L i ⟨A, E⟩ = (none, ⟨A, E⟩) := by
  intro L
  induction L with
  | nil => intro i A E _; rfl
  | cons m rest ih =>
      intro i A E h
      have h0 : migrationName i ∈ A := by simpa using h 0 (by simp)
      simp only [runMigrationsFrom, if_pos h0]
      refine ih (i + 1) A E fun j hj => ?_
      have := h (j + 1) (by simp; omega)
      rwa [show i + (j + 1) = i + 1 + j by omega] at this

theorem runMigrationsFrom_apply_all (exec : String → Option String) :
    ∀ (L : List String) (i : Nat) (A E : List String),
      (∀ j, j < L.length → migrationName (i + j) ∉ A) →
      (∀ m ∈ L, exec m = none) →
      runMigrationsFrom exec L i ⟨A, E⟩
        = (none, ⟨A ++ (List.range' i L.length).map migrationName, E ++ L⟩) := by
  intro L
  induction L with
  | nil => intro i A E _ _; simp [runMigrationsFrom]
  | cons m rest ih =>
      intro i A E hnew hok
      have h0 : migrationName i ∉ A := by simpa using hnew 0 (by simp)
      have hm : exec m = none := hok m (by simp)
      simp only [runMigrationsFrom, if_neg h0, hm]
      rw [ih (i + 1) (A ++ [migrationName i]) (E ++ [m])
        (fun j hj hmem => ?_) (fun x hx => hok x (by simp [hx]))]
      · simp [List.range'_succ]
      · rcases List.mem_append.mp hmem with hA | hsing
        · have := hnew (j + 1) (by simp; omega)
          rw [show i + (j + 1) = i + 1 + j by omega] at this
          exact this hA
        · have := migrationName_inj (List.mem_singleton.mp hsing)
          omega

theorem runMigrationsFrom_append_of_ok (exec : String → Option String) :
    ∀ (L1 L2 : List String) (i : Nat) (store : Store),
      (runMigrationsFrom exec L1 i store).1 = none →
      runMigrationsFrom exec (L1 ++ L2) i store
        = runMigrationsFrom exec L2 (i + L1.length) (runMigrationsFrom exec L1 i store).2 := by
  intro L1
  induction L1 with
  | nil => intro L2 i store _; simp [runMigrationsFrom]
  | cons m rest ih =>
      intro L2 i store h1
      by_cases hmem : migrationName i ∈ store.applied
      · simp only [List.cons_append, runMigrationsFrom, if_pos hmem,
          List.length_cons, List.append_eq] at h1 ⊢
        rw [ih L2 (i + 1) store h1, show i + (rest.length + 1) = i + 1 + rest.length by omega]
      · cases hexec : exec m with
        | some e =>
            simp only [runMigrationsFrom, if_neg hmem, hexec] at h1
            simp at h1
        | none =>
            simp only [List.cons_append, runMigrationsFrom, if_neg hmem, hexec,
              List.length_cons, List.append_eq] at h1 ⊢
            rw [ih L2 (i + 1) _ h1, show i + (rest.length + 1) = i + 1 + rest.length by omega]

theorem runMigrations_fresh (exec : String → Option String) (L : List String)
    (hok : ∀ m ∈ L, exec m = none) :
    RunMigrations exec freshStore L
      = (none, ⟨(List.range' 0 L.length).map migrationName, L⟩) := by
  have h := runMigrationsFrom_apply_all exec L 0 [] [] (by simp) hok
  simpa [RunMigrations, freshStore] using h

theorem runMigrations_skip_applied (exec : String → Option String) (L : List String)
    (n : Nat) (E : List String) (hn : L.length ≤ n) :
    RunMigrations exec (⟨(List.range' 0 n).map migrationName, E⟩ : Store) L
      = (none, ⟨(List.range' 0 n).map migrationName, E⟩) := by
  exact runMigrationsFrom_skip_all exec L 0 _ E fun j hj => by
    simpa using migrationName_mem_names.mpr (by omega)

/-! ### Migration runner claim theorems -/

/-- C1: `RunMigrations` is idempotent — after a fully successful run of a list
of N statements on a fresh store, re-running with the identical list succeeds
with zero schema-change executions (the executed log is unchanged) and the
bookkeeping table still holds exactly N rows. -/
theorem runMigrations_idempotent (exec : String → Option String) (L : List String)
    (hok : ∀ m ∈ L, exec m = none) :
    (RunMigrations exec freshStore L).1 = none
    ∧ (RunMigrations exec (RunMigrations exec freshStore L).2 L).1 = none
    ∧ (RunMigrations exec (RunMigrations exec freshStore L).2 L).2.executed
        = (RunMigrations exec freshStore L).2.executed
    ∧ (RunMigrations exec (RunMigrations exec freshStore L).2 L).2.applied.length
        = L.length := by
  have h1 := runMigrations_fresh exec L hok
  have h2 := runMigrations_skip_applied exec L L.length L (Nat.le_refl _)
  rw [h1]
  simp [h2]

/-- Witness for C1 with two concrete statements and an oracle on which every
statement succeeds. -/
theorem runMigrations_idempotent_witness :
    (RunMigrations (fun _ => none) freshStore ["CREATE TABLE a", "CREATE TABLE b"]).1 = none
    ∧ (RunMigrations (fun _ => none)
        (RunMigrations (fun _ => none) freshStore ["CREATE TABLE a", "CREATE TABLE b"]).2
        ["CREATE TABLE a", "CREATE TABLE b"]).1 = none
    ∧ (RunMigrations (fun _ => none)
        (RunMigrations (fun _ => none) freshStore ["CREATE TABLE a", "CREATE TABLE b"]).2
        ["CREATE TABLE a", "CREATE TABLE b"]).2.executed
        = (RunMigrations (fun _ => none) freshStore
            ["CREATE TABLE a", "CREATE TABLE b"]).2.executed
    ∧ (RunMigrations (fun _ => none)
        (RunMigrations (fun _ => none) freshStore ["CREATE TABLE a", "CREATE TABLE b"]).2
        ["CREATE TABLE a", "CREATE TABLE b"]).2.applied.length
        = (["CREATE TABLE a", "CREATE TABLE b"] : List String).length :=
  runMigrations_idempotent (fun _ => none) ["CREATE TABLE a", "CREATE TABLE b"]
    (fun _ _ => rfl)

/-- C2: fail-fast at the failing position — with statements
`pre ++ bad :: post` where every statement of `pre` succeeds and `bad` fails
with store error `e`, the run returns the error wrapping `e` and naming the
ordinal of `bad`; exactly the bookkeeping rows of `pre` exist; only the
statements of `pre` were executed; and a later run with `bad` corrected to
`good` succeeds and executes exactly `good` and the statements after it. -/
theorem runMigrations_failfast (exec : String → Option String)
    (pre post : List String) (bad good e : String)
    (hpre : ∀ m ∈ pre, exec m = none) (hbad : exec bad = some e)
    (hgood : exec good = none) (hpost : ∀ m ∈ post, exec m = none) :
    (RunMigrations exec freshStore (pre ++ bad :: post)).1
        = some ("failed to apply migration " ++ migrationName pre.length ++ ": " ++ e)
    ∧ (RunMigrations exec freshStore (pre ++ bad :: post)).2.applied
        = (List.range' 0 pre.length).map migrationName
    ∧ (RunMigrations exec freshStore (pre ++ bad :: post)).2.executed = pre
    ∧ (RunMigrations exec (RunMigrations exec freshStore (pre ++ bad :: post)).2
        (pre ++ good :: post)).1 = none
    ∧ (RunMigrations exec (RunMigrations exec freshStore (pre ++ bad :: post)).2
        (pre ++ good :: post)).2.executed = pre ++ good :: post := by
  have hfreshpre := runMigrations_fresh exec pre hpre
  have happend := runMigrationsFrom_append_of_ok exec pre (bad :: post) 0 freshStore
    (by rw [show runMigrationsFrom exec pre 0 freshStore = RunMigrations exec freshStore pre
      from rfl, hfreshpre])
  rw [show runMigrationsFrom exec pre 0 freshStore = RunMigrations exec freshStore pre
    from rfl, hfreshpre] at happend
  have hnotmem : migrationName pre.length
      ∉ (List.range' 0 pre.length).map migrationName := by
    rw [migrationName_mem_names]
    omega
  have hfail : RunMigrations exec freshStore (pre ++ bad :: post)
      = (some ("failed to apply migration " ++ migrationName pre.length ++ ": " ++ e),
         ⟨(List.range' 0 pre.length).map migrationName, pre⟩) := by
    rw [RunMigrations, happend]
    simp only [runMigrationsFrom, Nat.zero_add, if_neg hnotmem, hbad]
  rw [hfail]
  refine ⟨rfl, rfl, rfl, ?_, ?_⟩
  all_goals {
    have hskip := runMigrations_skip_applied exec pre pre.length pre (Nat.le_refl _)
    have happend2 := runMigrationsFrom_append_of_ok exec pre (good :: post) 0
      (⟨(List.range' 0 pre.length).map migrationName, pre⟩ : Store)
      (by rw [show runMigrationsFrom exec pre 0
          (⟨(List.range' 0 pre.length).map migrationName, pre⟩ : Store)
          = RunMigrations exec
            (⟨(List.range' 0 pre.length).map migrationName, pre⟩ : Store) pre from rfl,
        hskip])
    rw [show runMigrationsFrom exec pre 0
        (⟨(List.range' 0 pre.length).map migrationName, pre⟩ : Store)
        = RunMigrations exec
          (⟨(List.range' 0 pre.length).map migrationName, pre⟩ : Store) pre from rfl,
      hskip] at happend2
    have happly := runMigrationsFrom_apply_all exec (good :: post) pre.length
      ((List.range' 0 pre.length).map migrationName) pre
      (fun j hj hmem => by rw [migrationName_mem_names] at hmem; omega)
      (fun m hm => by
        rcases List.mem_cons.mp hm with rfl | hm2
        · exact hgood
        · exact hpost m hm2)
    rw [RunMigrations, happend2, Nat.zero_add, happly]
  }

/-- Witness for C2: `S1` succeeds, `S2bad` fails with error "syntax error",
the corrected `S2` and `S3` succeed. -/
theorem runMigrations_failfast_witness :
    (RunMigrations (fun s => if s = "S2bad" then some "syntax error" else none)
        freshStore (["S1"] ++ "S2bad" :: ["S3"])).1
        = some ("failed to apply migration " ++ migrationName (["S1"] : List String).length
            ++ ": " ++ "syntax error")
    ∧ (RunMigrations (fun s => if s = "S2bad" then some "syntax error" else none)
        freshStore (["S1"] ++ "S2bad" :: ["S3"])).2.applied
        = (List.range' 0 (["S1"] : List String).length).map migrationName
    ∧ (RunMigrations (fun s => if s = "S2bad" then some "syntax error" else none)
        freshStore (["S1"] ++ "S2bad" :: ["S3"])).2.executed = ["S1"]
    ∧ (RunMigrations (fun s => if s = "S2bad" then some "syntax error" else none)
        (RunMigrations (fun s => if s = "S2bad" then some "syntax error" else none)
          freshStore (["S1"] ++ "S2bad" :: ["S3"])).2
        (["S1"] ++ "S2" :: ["S3"])).1 = none
    ∧ (RunMigrations (fun s => if s = "S2bad" then some "syntax error" else none)
        (RunMigrations (fun s => if s = "S2bad" then some "syntax error" else none)
          freshStore (["S1"] ++ "S2bad" :: ["S3"])).2
        (["S1"] ++ "S2" :: ["S3"])).2.executed = ["S1"] ++ "S2" :: ["S3"] :=
  runMigrations_failfast (fun s => if s = "S2bad" then some "syntax error" else none)
    ["S1"] ["S3"] "S2bad" "S2" "syntax error"
    (by decide) (by decide) (by decide) (by decide)

/-- C6: migration identity is the ordinal name, not the statement content —
after `RunMigrations [S1, S2]` succeeds on a fresh store, running the reordered
list `[S2, S1]` executes zero schema-change statements (in particular `S1` is
not re-executed: the executed log still reads `[S1, S2]`). -/
theorem runMigrations_ordinal_identity (exec : String → Option String)
    (S1 S2 : String) (h1 : exec S1 = none) (h2 : exec S2 = none) :
    (RunMigrations exec freshStore [S1, S2]).1 = none
    ∧ (RunMigrations exec freshStore [S1, S2]).2.executed = [S1, S2]
    ∧ (RunMigrations exec (RunMigrations exec freshStore [S1, S2]).2 [S2, S1]).1 = none
    ∧ (RunMigrations exec (RunMigrations exec freshStore [S1, S2]).2 [S2, S1]).2.executed
        = (RunMigrations exec freshStore [S1, S2]).2.executed := by
  have hok : ∀ m ∈ [S1, S2], exec m = none := by
    intro m hm
    rcases List.mem_cons.mp hm with rfl | hm2
    · exact h1
    · rcases List.mem_cons.mp hm2 with rfl | hm3
      · exact h2
      · simp at hm3
  have hfresh := runMigrations_fresh exec [S1, S2] hok
  have hskip := runMigrations_skip_applied exec [S2, S1] ([S1, S2] : List String).length
    [S1, S2] (by simp)
  rw [hfresh]
  simp only [List.length_cons, List.length_nil] at hskip ⊢
  simp [hskip]

/-- Witness for C6 with two concrete distinct statements. -/
theorem runMigrations_ordinal_identity_witness :
    (RunMigrations (fun _ => none) freshStore ["CREATE x", "CREATE y"]).1 = none
    ∧ (RunMigrations (fun _ => none) freshStore ["CREATE x", "CREATE y"]).2.executed
        = ["CREATE x", "CREATE y"]
    ∧ (RunMigrations (fun _ => none)
        (RunMigrations (fun _ => none) freshStore ["CREATE x", "CREATE y"]).2
        ["CREATE y", "CREATE x"]).1 = none
    ∧ (RunMigrations (fun _ => none)
        (RunMigrations (fun _ => none) freshStore ["CREATE x", "CREATE y"]).2
        ["CREATE y", "CREATE x"]).2.executed
        = (RunMigrations (fun _ => none) freshStore ["CREATE x", "CREATE y"]).2.executed :=
  runMigrations_ordinal_identity (fun _ => none) "CREATE x" "CREATE y" rfl rfl

/-- C7: the bookkeeping name recorded at 0-based index `i` is the fixed
"migration_" text followed by the decimal rendering of the 1-based ordinal
`i + 1` left-padded with zeros to 3 characters, and it depends only on `i`,
never on the statement text: any two fully successful fresh runs record the
same name at index `i`. -/
theorem runMigrations_ordinal_names (exec exec2 : String → Option String)
    (L L2 : List String) (i : Nat)
    (hi : i < L.length) (hok : ∀ m ∈ L, exec m = none)
    (hi2 : i < L2.length) (hok2 : ∀ m ∈ L2, exec2 m = none) :
    (RunMigrations exec freshStore L).2.applied[i]?
        = some ("migration_" ++ String.mk (padLeft3 (natDigits (i + 1))))
    ∧ (RunMigrations exec2 freshStore L2).2.applied[i]?
        = (RunMigrations exec freshStore L).2.applied[i]? := by
  have key : ∀ (ex : String → Option String) (M : List String), i < M.length →
      (∀ m ∈ M, ex m = none) →
      (RunMigrations ex freshStore M).2.applied[i]? = some (migrationName i) := by
    intro ex M hiM hokM
    rw [runMigrations_fresh ex M hokM]
    rw [List.getElem?_map, List.getElem?_range' 0 1 hiM]
    simp
  refine ⟨?_, ?_⟩
  · rw [key exec L hi hok]; rfl
  · rw [key exec L hi hok, key exec2 L2 hi2 hok2]

/-- Witness for C7: index 1 of two different statement lists both get the name
"migration_002". -/
theorem runMigrations_ordinal_names_witness :
    (RunMigrations (fun _ => none) freshStore ["A", "B"]).2.applied[1]?
        = some ("migration_" ++ String.mk (padLeft3 (natDigits (1 + 1))))
    ∧ (RunMigrations (fun _ => none) freshStore ["X", "Y", "Z"]).2.applied[1]?
        = (RunMigrations (fun _ => none) freshStore ["A", "B"]).2.applied[1]? :=
  runMigrations_ordinal_names (fun _ => none) (fun _ => none) ["A", "B"] ["X", "Y", "Z"] 1
    (by decide) (fun _ _ => rfl) (by decide) (fun _ _ => rfl)

end AApps
